import Mathlib

/-!
Verification development for the AliceVision spherical-camera relative-pose sample
(`src/samples/robustEssentialSpherical/sphericalCam.hpp`).

The source file defines, in namespace `aliceVision::spherical_cam`:
* `planarToSpherical` — equirectangular pixel coordinates to unit-sphere directions;
* `EightPointRelativePoseSolver` — the linear eight-point essential-matrix solver,
  with an unweighted `solve`, a weighted `solve` overload that always throws, and the
  `getMinimumNbRequiredSamples` / `getMaximumNbModels` constants;
* `AngularError` — the angular residual of a correspondence against a model;
* `EssentialKernel_spherical` — the kernel adapting the solver and metric to a robust
  estimator's fit interface over a stored correspondence set;
* `TriangulateDLT` — two overloads (homogeneous and euclidean) of DLT triangulation.

Embedding conventions:
* `Mat` (3×N dynamic double matrices) become `Matrix (Fin 3) (Fin n) K` over a field `K`;
  the trigonometric components (`planarToSpherical`, `AngularError`) are fixed at `ℝ`,
  the algebraic components are generic so that concrete evaluations can run over `ℚ`.
* `Nullspace` (declared in `aliceVision/numeric/numeric.hpp`, outside this sample file)
  and Eigen's `JacobiSVD` are external linear-algebra calls; they are modelled as oracle
  parameters (`ns`, `svd`), with their mathematical guarantees supplied as hypotheses
  where a theorem needs them.
* The C++ `assert` preconditions are modelled by an `Option` result: `none` when an
  assertion would fail. The fixed row count 3 and the equality of the two sequences'
  shapes are carried by the types.
* `robustEstimation::Mat3Model` is a plain wrapper around a 3×3 matrix; models are
  embedded directly as `Matrix (Fin 3) (Fin 3) K`.
-/

open Matrix

/-- Euclidean norm of a 3-vector, as Eigen's `.norm()` computes it. -/
noncomputable def norm3 (v : Fin 3 → ℝ) : ℝ :=
  Real.sqrt (v 0 ^ 2 + v 1 ^ 2 + v 2 ^ 2)

/-- Eigen's `.normalized()`: divide each component by the euclidean norm. -/
noncomputable def normalize3 (v : Fin 3 → ℝ) : Fin 3 → ℝ :=
  fun i => v i / norm3 v

/-- Dot product of 3-vectors (`x2.transpose() * Em1`). -/
def dot3 (a b : Fin 3 → ℝ) : ℝ :=
  a 0 * b 0 + a 1 * b 1 + a 2 * b 2

/-- One column of `planarToSpherical`: map a planar point `(x, y)` on a
`width × height` equirectangular image to a unit-sphere direction.
Mirrors the loop body of `planarToSpherical` in `sphericalCam.hpp`. -/
noncomputable def planarToSphericalPoint (width height : ℕ) (xy : Fin 2 → ℝ) : Fin 3 → ℝ :=
  let uval := xy 0 / (width : ℝ)
  let vval := xy 1 / (height : ℝ)
  normalize3
    ![Real.sin (vval * Real.pi) * Real.cos (Real.pi * (2.0 * uval + 0.5)),
      Real.cos (vval * Real.pi),
      Real.sin (vval * Real.pi) * Real.sin (Real.pi * (2.0 * uval + 0.5))]

/-- `planarToSpherical`: columnwise application of `planarToSphericalPoint`. -/
noncomputable def planarToSpherical {n : ℕ} (planarCoords : Matrix (Fin 2) (Fin n) ℝ)
    (width height : ℕ) : Matrix (Fin 3) (Fin n) ℝ :=
  Matrix.of fun r c => planarToSphericalPoint width height (fun j => planarCoords j c) r

/-- `EightPointRelativePoseSolver::getMinimumNbRequiredSamples`. -/
def EightPointRelativePoseSolver.getMinimumNbRequiredSamples : ℕ := 8

/-- `EightPointRelativePoseSolver::getMaximumNbModels`. -/
def EightPointRelativePoseSolver.getMaximumNbModels : ℕ := 1

/-- `EightPointRelativePoseSolver::encodeEpipolarEquation`: row `i` of `A` holds the
nine outer-product terms of `x2.col(i)` and `x1.col(i)`, one branch per source
assignment (`A(i,0) = x2(0,i)*x1(0,i)`, …, `A(i,8) = x2(2,i)*x1(2,i)`). -/
def encodeEpipolarEquation {K : Type} [Field K] {n : ℕ}
    (x1 x2 : Matrix (Fin 3) (Fin n) K) : Matrix (Fin n) (Fin 9) K :=
  Matrix.of fun i k =>
    if k.val = 0 then x2 0 i * x1 0 i
    else if k.val = 1 then x2 0 i * x1 1 i
    else if k.val = 2 then x2 0 i * x1 2 i
    else if k.val = 3 then x2 1 i * x1 0 i
    else if k.val = 4 then x2 1 i * x1 1 i
    else if k.val = 5 then x2 1 i * x1 2 i
    else if k.val = 6 then x2 2 i * x1 0 i
    else if k.val = 7 then x2 2 i * x1 1 i
    else x2 2 i * x1 2 i

/-- `Map<RMat3>(e.data())`: reinterpret a 9-vector as a 3×3 matrix in row-major
order, `E(r,c) = e(3*r + c)`. -/
def mapRMat3 {K : Type} [Field K] (e : Fin 9 → K) : Matrix (Fin 3) (Fin 3) K :=
  Matrix.of fun r c => e ⟨3 * r.val + c.val, by omega⟩

/-- Result of Eigen's `JacobiSVD` on a 3×3 matrix: factors `U`, `V` and the vector `d`
of singular values. Its guarantees (`E = U * diagonal d * Vᵀ`, orthogonality of `U` and
`V`, sortedness and nonnegativity of `d`) are supplied as hypotheses where needed. -/
structure SVD3 (K : Type) where
  U : Matrix (Fin 3) (Fin 3) K
  d : Fin 3 → K
  V : Matrix (Fin 3) (Fin 3) K

/-- The manifold-projection step of `solve`: with `a = d[0]`, `b = d[1]`, set
`d' = ((a+b)/2, (a+b)/2, 0)` and rebuild `U * d'.asDiagonal() * Vᵀ`. -/
def essentialProject {K : Type} [Field K] (s : SVD3 K) : Matrix (Fin 3) (Fin 3) K :=
  s.U * Matrix.diagonal ![(s.d 0 + s.d 1) / 2, (s.d 0 + s.d 1) / 2, 0] * (s.V)ᵀ

/-- `EightPointRelativePoseSolver::solve` (unweighted overload).
`ns` models the external `Nullspace` routine and `svd` models Eigen's `JacobiSVD`.
The `assert`s (`3 == x1.rows()`, `8 <= x1.cols()`, matching shapes) are modelled by
the `Option` guard; the row count and shape equality are enforced by the types. -/
def EightPointRelativePoseSolver.solve {K : Type} [Field K] {n : ℕ}
    (ns : (m : ℕ) → Matrix (Fin m) (Fin 9) K → Fin 9 → K)
    (svd : Matrix (Fin 3) (Fin 3) K → SVD3 K)
    (x1 x2 : Matrix (Fin 3) (Fin n) K)
    (models : List (Matrix (Fin 3) (Fin 3) K)) :
    Option (List (Matrix (Fin 3) (Fin 3) K)) :=
  if 8 ≤ n then
    let A := encodeEpipolarEquation x1 x2
    let e := ns n A
    let E := mapRMat3 e
    let E2 := if 8 < n then essentialProject (svd E) else E
    some (models ++ [E2])
  else none

/-- The exception text thrown by the weighted `solve` overload. -/
def weightedSolveMessage : String :=
  "EightPointRelativePoseSolver does not support problem solving with weights."

/-- `EightPointRelativePoseSolver::solve` (weighted overload): unconditionally throws
`std::logic_error`, touching neither the inputs nor the model list. -/
def EightPointRelativePoseSolver.solveWeighted {K : Type} [Field K] {n : ℕ}
    (x1 x2 : Matrix (Fin 3) (Fin n) K)
    (models : List (Matrix (Fin 3) (Fin 3) K))
    (weights : List K) :
    Except String (List (Matrix (Fin 3) (Fin 3) K)) :=
  Except.error weightedSolveMessage

/-- `AngularError::error`: `Em1 = (model * x1).normalized()`,
`angleVal = (x2ᵀ * Em1) / (x2.norm() * Em1.norm())`, result `abs(asin(angleVal))`. -/
noncomputable def AngularError.error (model : Matrix (Fin 3) (Fin 3) ℝ) (x1 x2 : Fin 3 → ℝ) : ℝ :=
  let Em1 := normalize3 (model.mulVec x1)
  let angleVal := dot3 x2 Em1 / (norm3 x2 * norm3 Em1)
  |Real.arcsin angleVal|

/-- `EssentialKernel_spherical`: holds the full correspondence set `(x1, x2)`
(two index-aligned 3×n matrices). -/
structure EssentialKernel_spherical (K : Type) (n : ℕ) where
  x1 : Matrix (Fin 3) (Fin n) K
  x2 : Matrix (Fin 3) (Fin n) K

/-- `EssentialKernel_spherical::fit`: asserts on the *stored* matrices
(`3 == _x1.rows()`, `getMinimumNbRequiredSamples() <= _x1.cols()`, matching shapes —
the `Option` guard models the column-count assert, the rest is carried by the types)
and then calls `solve(_x1, _x2, models)` on the full stored set.  The `samples`
argument is not consulted anywhere in the body, exactly as in the source. -/
def EssentialKernel_spherical.fit {K : Type} [Field K] {n : ℕ}
    (k : EssentialKernel_spherical K n) (samples : List (Fin n))
    (ns : (m : ℕ) → Matrix (Fin m) (Fin 9) K → Fin 9 → K)
    (svd : Matrix (Fin 3) (Fin 3) K → SVD3 K)
    (models : List (Matrix (Fin 3) (Fin 3) K)) :
    Option (List (Matrix (Fin 3) (Fin 3) K)) :=
  if 8 ≤ n then EightPointRelativePoseSolver.solve ns svd k.x1 k.x2 models
  else none

/-- Column gathering: the matrix whose `j`-th column is column `samples[j]` of `x`. -/
def gatherColumns {K : Type} [Field K] {n : ℕ}
    (x : Matrix (Fin 3) (Fin n) K) (samples : List (Fin n)) :
    Matrix (Fin 3) (Fin samples.length) K :=
  Matrix.of fun r j => x r (samples.get j)

/-- Modelled from the spec: the specified behaviour of `EstimationKernel.fit`, which
"gathers the subset's direction vectors and delegates to EssentialSolver.solve" — i.e.
it extracts the sampled columns of the stored correspondence set and solves on exactly
that subset.  This definition exists to be compared with the source's
`EssentialKernel_spherical.fit`, which does not do this. -/
def fitSpecSubset {K : Type} [Field K] {n : ℕ}
    (k : EssentialKernel_spherical K n) (samples : List (Fin n))
    (ns : (m : ℕ) → Matrix (Fin m) (Fin 9) K → Fin 9 → K)
    (svd : Matrix (Fin 3) (Fin 3) K → SVD3 K)
    (models : List (Matrix (Fin 3) (Fin 3) K)) :
    Option (List (Matrix (Fin 3) (Fin 3) K)) :=
  EightPointRelativePoseSolver.solve ns svd
    (gatherColumns k.x1 samples) (gatherColumns k.x2 samples) models

/-- The 6×4 design matrix built by `TriangulateDLT`: its six rows are, entry for
entry, the six assignments in the source loop (`design(0,i) = -x1[2]*P1(1,i) +
x1[1]*P1(2,i)`, …, `design(5,i) = -x2[1]*P2(0,i) + x2[0]*P2(1,i)`). -/
def triangulationDesign {K : Type} [Field K]
    (P1 : Matrix (Fin 3) (Fin 4) K) (x1 : Fin 3 → K)
    (P2 : Matrix (Fin 3) (Fin 4) K) (x2 : Fin 3 → K) :
    Matrix (Fin 6) (Fin 4) K :=
  Matrix.of fun r i =>
    if r.val = 0 then -x1 2 * P1 1 i + x1 1 * P1 2 i
    else if r.val = 1 then x1 2 * P1 0 i - x1 0 * P1 2 i
    else if r.val = 2 then -x1 1 * P1 0 i + x1 0 * P1 1 i
    else if r.val = 3 then -x2 2 * P2 1 i + x2 1 * P2 2 i
    else if r.val = 4 then x2 2 * P2 0 i - x2 0 * P2 2 i
    else -x2 1 * P2 0 i + x2 0 * P2 1 i

/-- The cross-product constraint matrix `cross(x,·) · P`: row `j` is the `j`-th
component of `cross(x, P·X)` as a linear form in `X`.  Written from the spec's
description of the triangulation system ("the cross-product constraint
cross(xi,·)·Pi·X = 0"), for comparison with the rows the source actually builds. -/
def crossConstraint {K : Type} [Field K]
    (x : Fin 3 → K) (P : Matrix (Fin 3) (Fin 4) K) : Matrix (Fin 3) (Fin 4) K :=
  Matrix.of fun j i =>
    if j.val = 0 then x 1 * P 2 i - x 2 * P 1 i
    else if j.val = 1 then x 2 * P 0 i - x 0 * P 2 i
    else x 0 * P 1 i - x 1 * P 0 i

/-- `TriangulateDLT` (homogeneous overload): build the 6×4 design matrix and return
its right null vector.  `ns` models the external `Nullspace` routine. -/
def TriangulateDLT {K : Type} [Field K]
    (ns : Matrix (Fin 6) (Fin 4) K → Fin 4 → K)
    (P1 : Matrix (Fin 3) (Fin 4) K) (x1 : Fin 3 → K)
    (P2 : Matrix (Fin 3) (Fin 4) K) (x2 : Fin 3 → K) : Fin 4 → K :=
  ns (triangulationDesign P1 x1 P2 x2)

/-- Modelled from the spec: `homogeneousToEuclidean` (declared in
`aliceVision/numeric/numeric.hpp`, outside this sample file) "divides the homogeneous
point by its 4th coordinate"; no guard, no error path. -/
def homogeneousToEuclidean {K : Type} [Field K] (X : Fin 4 → K) : Fin 3 → K :=
  fun i => X i.castSucc / X 3

/-- `TriangulateDLT` (euclidean overload): triangulate homogeneously, then convert
with `homogeneousToEuclidean`.  No degeneracy check anywhere on the path. -/
def TriangulateDLTEuclidean {K : Type} [Field K]
    (ns : Matrix (Fin 6) (Fin 4) K → Fin 4 → K)
    (P1 : Matrix (Fin 3) (Fin 4) K) (x1 : Fin 3 → K)
    (P2 : Matrix (Fin 3) (Fin 4) K) (x2 : Fin 3 → K) : Fin 3 → K :=
  homogeneousToEuclidean (TriangulateDLT ns P1 x1 P2 x2)

/-- The essential-manifold singular-value structure: `M` factors as
`U * diagonal (s, s, 0) * Vᵀ` with `U`, `V` orthogonal and `s ≠ 0` — an SVD-shaped
decomposition whose singular values are `(|s|, |s|, 0)`, i.e. exactly two equal
nonzero singular values and one zero singular value. -/
def HasEssentialSV {K : Type} [Field K] (M : Matrix (Fin 3) (Fin 3) K) : Prop :=
  ∃ (s : K) (U V : Matrix (Fin 3) (Fin 3) K),
    s ≠ 0 ∧ Uᵀ * U = 1 ∧ Vᵀ * V = 1 ∧
    M = U * Matrix.diagonal ![s, s, 0] * Vᵀ

/-! ### Concrete instances used by counterexamples and witnesses

The eight- and nine-column inputs below pair standard basis vectors so that row `i`
of the encoded epipolar system is the standard basis row `e_(i+1)` of `ℚ^9` (the
ninth column repeats the first pair), making `(1, 0, …, 0)` an exact right null
vector of both the full system and the gathered eight-column subsystem. -/

/-- The 9-vector `(1, 0, …, 0)`. -/
def e0vec : Fin 9 → ℚ := fun k => if k.val = 0 then 1 else 0

/-- A nullspace oracle that returns `e0vec`; a genuine null vector of the concrete
systems below, as proved where it is used. -/
def nsE0 : (m : ℕ) → Matrix (Fin m) (Fin 9) ℚ → Fin 9 → ℚ := fun _ _ => e0vec

/-- An SVD oracle returning `U = V = 1`, `d = (1, 0, 0)`; a genuine, sorted,
nonnegative SVD of the raw model arising from `nsE0`, as proved where used. -/
def svdD100 : Matrix (Fin 3) (Fin 3) ℚ → SVD3 ℚ := fun _ => ⟨1, ![1, 0, 0], 1⟩

/-- Eight correspondences: column `c` of `x1eight` is the standard basis vector of
index `(c+1) % 3` (and of index `(c+1) / 3` in `x2eight`). -/
def x1eight : Matrix (Fin 3) (Fin 8) ℚ :=
  Matrix.of fun r c => if r.val = (c.val + 1) % 3 then 1 else 0

/-- Companion of `x1eight` for the second camera. -/
def x2eight : Matrix (Fin 3) (Fin 8) ℚ :=
  Matrix.of fun r c => if r.val = (c.val + 1) / 3 then 1 else 0

/-- Column-to-basis-index map of the nine-column input: `1, 2, …, 8, 1`. -/
def kNine : ℕ → ℕ := fun c => if c = 8 then 1 else c + 1

/-- Nine correspondences for the first camera (ninth column repeats the first). -/
def x1nine : Matrix (Fin 3) (Fin 9) ℚ :=
  Matrix.of fun r c => if r.val = kNine c.val % 3 then 1 else 0

/-- Nine correspondences for the second camera. -/
def x2nine : Matrix (Fin 3) (Fin 9) ℚ :=
  Matrix.of fun r c => if r.val = kNine c.val / 3 then 1 else 0

/-- A kernel holding the nine-column correspondence set. -/
def kernelNine : EssentialKernel_spherical ℚ 9 := ⟨x1nine, x2nine⟩

/-- A kernel holding the eight-column correspondence set. -/
def kernelEight : EssentialKernel_spherical ℚ 8 := ⟨x1eight, x2eight⟩

/-- The sample index set `{0, …, 7}` over a nine-element correspondence set. -/
def sampleFirstEight : List (Fin 9) := [0, 1, 2, 3, 4, 5, 6, 7]

/-- The unit vector `(1, 0, 0)` in `ℝ^3`. -/
def unitX : Fin 3 → ℝ := fun i => if i.val = 0 then 1 else 0

/-! ### Helper lemmas -/

/-- Cancelling an orthogonal factor: `Vᵀ * (V * X) = X`. -/
lemma mulVt_cancel {K : Type} [Field K] {V : Matrix (Fin 3) (Fin 3) K}
    (hV : Vᵀ * V = 1) (X : Matrix (Fin 3) (Fin 3) K) : Vᵀ * (V * X) = X := by
  rw [← Matrix.mul_assoc, hV, Matrix.one_mul]

/-- The cube of `diagonal (s, s, 0)` is `s²` times itself. -/
lemma diag_cube {K : Type} [Field K] (s : K) :
    Matrix.diagonal ![s, s, 0] * (Matrix.diagonal ![s, s, 0] * Matrix.diagonal ![s, s, 0]) =
      (s ^ 2) • Matrix.diagonal ![s, s, 0] := by
  rw [Matrix.diagonal_mul_diagonal, Matrix.diagonal_mul_diagonal]
  funext i j
  fin_cases i <;> fin_cases j <;>
    simp [Matrix.diagonal_apply, Matrix.smul_apply] <;> ring

/-- The trace of the square of `diagonal (s, s, 0)` is `2s²`. -/
lemma diag_sq_trace {K : Type} [Field K] (s : K) :
    Matrix.trace (Matrix.diagonal ![s, s, 0] * Matrix.diagonal ![s, s, 0]) = 2 * s ^ 2 := by
  rw [Matrix.diagonal_mul_diagonal, Matrix.trace_diagonal]
  simp [Fin.sum_univ_three]
  ring

/-- For `M = U * diagonal (s, s, 0) * Vᵀ` with `U`, `V` orthogonal:
`M * Mᵀ * M = s² • M`.  This is the algebraic face of "the singular values of `M`
are `(|s|, |s|, 0)`". -/
lemma projected_cube {K : Type} [Field K] (U V : Matrix (Fin 3) (Fin 3) K) (s : K)
    (hU : Uᵀ * U = 1) (hV : Vᵀ * V = 1) :
    (U * Matrix.diagonal ![s, s, 0] * Vᵀ) * (U * Matrix.diagonal ![s, s, 0] * Vᵀ)ᵀ *
        (U * Matrix.diagonal ![s, s, 0] * Vᵀ) =
      (s ^ 2) • (U * Matrix.diagonal ![s, s, 0] * Vᵀ) := by
  have hMT : (U * Matrix.diagonal ![s, s, 0] * Vᵀ)ᵀ =
      V * Matrix.diagonal ![s, s, 0] * Uᵀ := by
    rw [Matrix.transpose_mul, Matrix.transpose_mul, Matrix.transpose_transpose,
      Matrix.diagonal_transpose, Matrix.mul_assoc]
  rw [hMT]
  calc (U * Matrix.diagonal ![s, s, 0] * Vᵀ) * (V * Matrix.diagonal ![s, s, 0] * Uᵀ) *
        (U * Matrix.diagonal ![s, s, 0] * Vᵀ)
      = U * (Matrix.diagonal ![s, s, 0] * (Vᵀ * (V * (Matrix.diagonal ![s, s, 0] *
          (Uᵀ * (U * (Matrix.diagonal ![s, s, 0] * Vᵀ))))))) := by
        simp only [Matrix.mul_assoc]
    _ = U * (Matrix.diagonal ![s, s, 0] * (Matrix.diagonal ![s, s, 0] *
          (Matrix.diagonal ![s, s, 0] * Vᵀ))) := by
        rw [mulVt_cancel hV, mulVt_cancel hU]
    _ = U * ((Matrix.diagonal ![s, s, 0] * (Matrix.diagonal ![s, s, 0] *
          Matrix.diagonal ![s, s, 0])) * Vᵀ) := by
        simp only [Matrix.mul_assoc]
    _ = U * (((s ^ 2) • Matrix.diagonal ![s, s, 0]) * Vᵀ) := by rw [diag_cube]
    _ = (s ^ 2) • (U * Matrix.diagonal ![s, s, 0] * Vᵀ) := by
        rw [Matrix.smul_mul, Matrix.mul_smul, Matrix.mul_assoc]

/-- For `M = U * diagonal (s, s, 0) * Vᵀ` with `U`, `V` orthogonal:
`trace (M * Mᵀ) = 2s²` (the sum of the squared singular values). -/
lemma projected_trace {K : Type} [Field K] (U V : Matrix (Fin 3) (Fin 3) K) (s : K)
    (hU : Uᵀ * U = 1) (hV : Vᵀ * V = 1) :
    Matrix.trace ((U * Matrix.diagonal ![s, s, 0] * Vᵀ) *
        (U * Matrix.diagonal ![s, s, 0] * Vᵀ)ᵀ) = 2 * s ^ 2 := by
  have hMT : (U * Matrix.diagonal ![s, s, 0] * Vᵀ)ᵀ =
      V * Matrix.diagonal ![s, s, 0] * Uᵀ := by
    rw [Matrix.transpose_mul, Matrix.transpose_mul, Matrix.transpose_transpose,
      Matrix.diagonal_transpose, Matrix.mul_assoc]
  rw [hMT]
  have h1 : (U * Matrix.diagonal ![s, s, 0] * Vᵀ) * (V * Matrix.diagonal ![s, s, 0] * Uᵀ) =
      U * (Matrix.diagonal ![s, s, 0] * (Matrix.diagonal ![s, s, 0] * Uᵀ)) := by
    calc (U * Matrix.diagonal ![s, s, 0] * Vᵀ) * (V * Matrix.diagonal ![s, s, 0] * Uᵀ)
        = U * (Matrix.diagonal ![s, s, 0] * (Vᵀ * (V * (Matrix.diagonal ![s, s, 0] * Uᵀ)))) := by
          simp only [Matrix.mul_assoc]
      _ = U * (Matrix.diagonal ![s, s, 0] * (Matrix.diagonal ![s, s, 0] * Uᵀ)) := by
          rw [mulVt_cancel hV]
  rw [h1, Matrix.trace_mul_comm]
  calc Matrix.trace ((Matrix.diagonal ![s, s, 0] * (Matrix.diagonal ![s, s, 0] * Uᵀ)) * U)
      = Matrix.trace (Matrix.diagonal ![s, s, 0] * (Matrix.diagonal ![s, s, 0] * (Uᵀ * U))) := by
        simp only [Matrix.mul_assoc]
    _ = Matrix.trace (Matrix.diagonal ![s, s, 0] * Matrix.diagonal ![s, s, 0]) := by
        rw [hU, Matrix.mul_one]
    _ = 2 * s ^ 2 := diag_sq_trace s

/-- The row-major reshape is injective at zero: a 9-vector reshaping to the zero
matrix is zero. -/
lemma mapRMat3_eq_zero {K : Type} [Field K] {e : Fin 9 → K}
    (h : mapRMat3 e = 0) : e = 0 := by
  funext k
  have h' := congrFun (congrFun h ⟨k.val / 3, by omega⟩) ⟨k.val % 3, by omega⟩
  simp only [mapRMat3, Matrix.of_apply, Matrix.zero_apply] at h'
  have hk : (⟨3 * (k.val / 3) + k.val % 3, by omega⟩ : Fin 9) = k := by
    apply Fin.ext
    simp
    omega
  rw [hk] at h'
  exact h'

/-! ### Claim theorems -/

/-- C4: the unweighted solve applies the manifold-projection correction if and only
if strictly more than 8 correspondences are supplied — with exactly 8 the raw linear
solution is emitted and the SVD is never consulted, with more than 8 the emitted
model is `essentialProject` of the SVD of the raw solution — and for any orthogonal
SVD factors the projected model `M` satisfies `2·(M·Mᵀ·M) = trace(M·Mᵀ)·M`, the
algebraic form of "the singular values are `(d, d, 0)`", i.e. `d0 = d1` and
`d2 = 0`. -/
theorem solve_manifold_correction_iff_above_eight {K : Type} [Field K] {n : ℕ}
    (ns : (m : ℕ) → Matrix (Fin m) (Fin 9) K → Fin 9 → K)
    (svd : Matrix (Fin 3) (Fin 3) K → SVD3 K)
    (x1 x2 : Matrix (Fin 3) (Fin n) K) (models : List (Matrix (Fin 3) (Fin 3) K)) :
    (n = 8 → EightPointRelativePoseSolver.solve ns svd x1 x2 models =
        some (models ++ [mapRMat3 (ns n (encodeEpipolarEquation x1 x2))]))
    ∧ (8 < n → EightPointRelativePoseSolver.solve ns svd x1 x2 models =
        some (models ++
          [essentialProject (svd (mapRMat3 (ns n (encodeEpipolarEquation x1 x2))))]))
    ∧ (∀ S : SVD3 K, (S.U)ᵀ * S.U = 1 → (S.V)ᵀ * S.V = 1 →
        (2 : K) • (essentialProject S * (essentialProject S)ᵀ * essentialProject S) =
          Matrix.trace (essentialProject S * (essentialProject S)ᵀ) •
            essentialProject S) := by
  refine ⟨fun h => ?_, fun h => ?_, fun S hU hV => ?_⟩
  · subst h
    simp [EightPointRelativePoseSolver.solve]
  · simp [EightPointRelativePoseSolver.solve, h, Nat.le_of_lt h]
  · simp only [essentialProject]
    rw [projected_cube S.U S.V _ hU hV, projected_trace S.U S.V _ hU hV, smul_smul]

/-- C4 witness: the correction branch and the structure identity at the concrete
nine-column input with the concrete oracles. -/
theorem solve_manifold_correction_iff_above_eight_witness :
    EightPointRelativePoseSolver.solve nsE0 svdD100 x1nine x2nine [] =
      some ([] ++
        [essentialProject (svdD100 (mapRMat3 (nsE0 9 (encodeEpipolarEquation x1nine x2nine))))])
    ∧ (2 : ℚ) • (essentialProject (svdD100 1) * (essentialProject (svdD100 1))ᵀ *
          essentialProject (svdD100 1)) =
        Matrix.trace (essentialProject (svdD100 1) * (essentialProject (svdD100 1))ᵀ) •
          essentialProject (svdD100 1) :=
  ⟨(solve_manifold_correction_iff_above_eight nsE0 svdD100 x1nine x2nine []).2.1
      (by decide),
   (solve_manifold_correction_iff_above_eight nsE0 svdD100 x1nine x2nine []).2.2
      (svdD100 1) (by simp [svdD100]) (by simp [svdD100])⟩

/-- C5: the solver reports a minimum sample size of 8 and a maximum model count of
1, and on every valid input (two aligned 3×n sequences, `n ≥ 8`) the unweighted
solve appends exactly one model to the output list. -/
theorem solver_sizes_and_single_model {K : Type} [Field K] {n : ℕ}
    (ns : (m : ℕ) → Matrix (Fin m) (Fin 9) K → Fin 9 → K)
    (svd : Matrix (Fin 3) (Fin 3) K → SVD3 K)
    (x1 x2 : Matrix (Fin 3) (Fin n) K) (models : List (Matrix (Fin 3) (Fin 3) K)) :
    EightPointRelativePoseSolver.getMinimumNbRequiredSamples = 8
    ∧ EightPointRelativePoseSolver.getMaximumNbModels = 1
    ∧ (8 ≤ n → ∃ M, EightPointRelativePoseSolver.solve ns svd x1 x2 models =
        some (models ++ [M])) := by
  refine ⟨rfl, rfl, fun h8 => ?_⟩
  refine ⟨if 8 < n then
      essentialProject (svd (mapRMat3 (ns n (encodeEpipolarEquation x1 x2))))
    else mapRMat3 (ns n (encodeEpipolarEquation x1 x2)), ?_⟩
  simp [EightPointRelativePoseSolver.solve, h8]

/-- C5 witness: exactly one model appended at the concrete eight-column input. -/
theorem solver_sizes_and_single_model_witness :
    ∃ M, EightPointRelativePoseSolver.solve nsE0 svdD100 x1eight x2eight [] =
      some ([] ++ [M]) :=
  (solver_sizes_and_single_model nsE0 svdD100 x1eight x2eight []).2.2 (by decide)

/-- C6: the weighted solve overload fails with the "unsupported operation" condition
on every input whatsoever; it never returns a model list. -/
theorem solveWeighted_always_unsupported {K : Type} [Field K] {n : ℕ}
    (x1 x2 : Matrix (Fin 3) (Fin n) K)
    (models : List (Matrix (Fin 3) (Fin 3) K)) (weights : List K) :
    EightPointRelativePoseSolver.solveWeighted x1 x2 models weights =
      Except.error weightedSolveMessage
    ∧ ∀ l, EightPointRelativePoseSolver.solveWeighted x1 x2 models weights ≠
        Except.ok l :=
  ⟨rfl, fun l h => by simp [EightPointRelativePoseSolver.solveWeighted] at h⟩

/-- C9: the euclidean triangulation overload is the homogeneous overload followed by
the unguarded division by the 4th homogeneous coordinate — defined on every input,
with no degeneracy check on the path; the homogeneous overload itself is exactly the
null vector of the design matrix. -/
theorem triangulateDLT_euclidean_no_guard {K : Type} [Field K]
    (ns : Matrix (Fin 6) (Fin 4) K → Fin 4 → K)
    (P1 P2 : Matrix (Fin 3) (Fin 4) K) (x1 x2 : Fin 3 → K) :
    TriangulateDLT ns P1 x1 P2 x2 = ns (triangulationDesign P1 x1 P2 x2)
    ∧ TriangulateDLTEuclidean ns P1 x1 P2 x2 =
        homogeneousToEuclidean (TriangulateDLT ns P1 x1 P2 x2)
    ∧ ∀ i, TriangulateDLTEuclidean ns P1 x1 P2 x2 i =
        TriangulateDLT ns P1 x1 P2 x2 i.castSucc / TriangulateDLT ns P1 x1 P2 x2 3 :=
  ⟨rfl, rfl, fun _ => rfl⟩

/-- C10: the `fit` precondition checks are evaluated on the stored full
correspondence set, not on the sample index set — any kernel with at least 8 stored
correspondences passes them for every sample list, however short. -/
theorem fit_precondition_checks_stored_set {K : Type} [Field K] {n : ℕ}
    (k : EssentialKernel_spherical K n) (h8 : 8 ≤ n) (samples : List (Fin n))
    (ns : (m : ℕ) → Matrix (Fin m) (Fin 9) K → Fin 9 → K)
    (svd : Matrix (Fin 3) (Fin 3) K → SVD3 K)
    (models : List (Matrix (Fin 3) (Fin 3) K)) :
    (EssentialKernel_spherical.fit k samples ns svd models).isSome = true := by
  simp [EssentialKernel_spherical.fit, EightPointRelativePoseSolver.solve, h8]

/-- C10 witness: a two-element sample list passes the checks on an eight-column
kernel. -/
theorem fit_precondition_checks_stored_set_witness :
    8 ≤ 8 ∧
      (EssentialKernel_spherical.fit kernelEight [0, 1] nsE0 svdD100 []).isSome = true :=
  ⟨by decide,
   fit_precondition_checks_stored_set kernelEight (by decide) [0, 1] nsE0 svdD100 []⟩

/-- The sample list `{0, …, 7}` selects the column of its own position. -/
lemma sampleFirstEight_get_val :
    ∀ j : Fin sampleFirstEight.length, (sampleFirstEight.get j).val = j.val := by decide

/-- The sample list has eight entries. -/
lemma sampleFirstEight_length : sampleFirstEight.length = 8 := by decide

/-- C1 (failing evaluation): the claim says `fit(S)` gathers only the direction
vectors at the indices in `S` and delegates exactly that subset to the solver.  On
the nine-correspondence kernel `kernelNine` with `S = {0, …, 7}`, and with honest
oracles (the first three conjuncts prove `e0vec` is a genuine nonzero null vector of
both the full and the gathered system, and the fourth that `svdD100` is a genuine
SVD of the raw model), the source's `fit` delegates the full nine-column stored set
— taking the over-determined branch and returning the projected model
`diag(1/2, 1/2, 0)` — while solving on the gathered eight-column subset would skip
the projection and return the raw model `mapRMat3 e0vec`; the two results differ,
so the fitted model depends on how many correspondences are stored, not on `S`. -/
theorem fit_uses_full_set_not_samples :
    ((encodeEpipolarEquation kernelNine.x1 kernelNine.x2).mulVec e0vec = 0
      ∧ e0vec ≠ 0
      ∧ (encodeEpipolarEquation (gatherColumns kernelNine.x1 sampleFirstEight)
          (gatherColumns kernelNine.x2 sampleFirstEight)).mulVec e0vec = 0
      ∧ mapRMat3 e0vec =
          (svdD100 (mapRMat3 e0vec)).U * Matrix.diagonal (svdD100 (mapRMat3 e0vec)).d *
            ((svdD100 (mapRMat3 e0vec)).V)ᵀ)
    ∧ EssentialKernel_spherical.fit kernelNine sampleFirstEight nsE0 svdD100 [] =
        some [Matrix.diagonal ![1/2, 1/2, 0]]
    ∧ fitSpecSubset kernelNine sampleFirstEight nsE0 svdD100 [] = some [mapRMat3 e0vec]
    ∧ EssentialKernel_spherical.fit kernelNine sampleFirstEight nsE0 svdD100 [] ≠
        fitSpecSubset kernelNine sampleFirstEight nsE0 svdD100 [] := by
  have h5 : EssentialKernel_spherical.fit kernelNine sampleFirstEight nsE0 svdD100 [] =
      some [Matrix.diagonal ![(1:ℚ)/2, 1/2, 0]] := by
    simp [EssentialKernel_spherical.fit, EightPointRelativePoseSolver.solve, kernelNine,
      nsE0, svdD100, essentialProject]
  have h6 : fitSpecSubset kernelNine sampleFirstEight nsE0 svdD100 [] =
      some [mapRMat3 e0vec] := by
    simp [fitSpecSubset, EightPointRelativePoseSolver.solve, sampleFirstEight, nsE0]
  refine ⟨⟨?_, ?_, ?_, ?_⟩, h5, h6, ?_⟩
  · funext i
    fin_cases i <;>
      simp [Matrix.mulVec, Matrix.dotProduct, Fin.sum_univ_succ, encodeEpipolarEquation,
        e0vec, kernelNine, x1nine, x2nine, kNine] <;> decide
  · intro h
    have h0 := congrFun h 0
    simp [e0vec] at h0
  · funext i
    fin_cases i <;>
      simp [Matrix.mulVec, Matrix.dotProduct, Fin.sum_univ_succ, encodeEpipolarEquation,
        e0vec, kernelNine, gatherColumns, sampleFirstEight_get_val, x1nine, x2nine,
        kNine] <;> decide
  · funext r c
    fin_cases r <;> fin_cases c <;> simp [mapRMat3, e0vec, svdD100, Matrix.diagonal]
  · intro h
    rw [h5, h6] at h
    simp only [Option.some.injEq, List.cons.injEq, and_true] at h
    have h00 := congrFun (congrFun h 0) 0
    simp [Matrix.diagonal, mapRMat3, e0vec] at h00

/-- C3 counterexample: with exactly 8 correspondences (a valid input, `N ≥ 8`) the
solver emits the raw reshaped null vector with no enforcement.  On the concrete
eight-column input `(x1eight, x2eight)` the nonzero vector `e0vec` is an exact null
vector of the encoded system (first conjunct), the returned model is its reshape
`mapRMat3 e0vec` (a rank-one matrix with singular values `(1,0,0)`), and that model
violates the two-equal-nonzero-one-zero singular-value structure: it fails both the
algebraic identity `2·(M·Mᵀ·M) = trace(M·Mᵀ)·M` that characterises `d0 = d1 ∧
d2 = 0`, and `HasEssentialSV`. -/
theorem solve_eight_points_structure_not_enforced :
    ((encodeEpipolarEquation x1eight x2eight).mulVec e0vec = 0 ∧ e0vec ≠ 0)
    ∧ EightPointRelativePoseSolver.solve nsE0 svdD100 x1eight x2eight [] =
        some [mapRMat3 e0vec]
    ∧ ¬ ((2 : ℚ) • (mapRMat3 e0vec * (mapRMat3 e0vec)ᵀ * mapRMat3 e0vec) =
          Matrix.trace (mapRMat3 e0vec * (mapRMat3 e0vec)ᵀ) • mapRMat3 e0vec)
    ∧ ¬ HasEssentialSV (mapRMat3 e0vec) := by
  have hcube : mapRMat3 e0vec * (mapRMat3 e0vec)ᵀ * mapRMat3 e0vec = mapRMat3 e0vec := by
    funext r c
    fin_cases r <;> fin_cases c <;>
      simp [mapRMat3, e0vec, Matrix.mul_apply, Fin.sum_univ_succ]
  have htr : Matrix.trace (mapRMat3 e0vec * (mapRMat3 e0vec)ᵀ) = 1 := by
    simp [Matrix.trace, Matrix.diag, mapRMat3, e0vec, Matrix.mul_apply,
      Fin.sum_univ_succ, Fin.sum_univ_three]
  refine ⟨⟨?_, ?_⟩, ?_, ?_, ?_⟩
  · funext i
    simp [Matrix.mulVec, Matrix.dotProduct, Fin.sum_univ_succ, encodeEpipolarEquation,
      e0vec, x1eight, x2eight]
    omega
  · intro h
    have h0 := congrFun h 0
    simp [e0vec] at h0
  · simp [EightPointRelativePoseSolver.solve, nsE0]
  · intro h
    rw [hcube, htr] at h
    have h00 := congrFun (congrFun h 0) 0
    simp [Matrix.smul_apply, mapRMat3, e0vec, smul_eq_mul] at h00
  · rintro ⟨s, U, V, hs, hU, hV, hM⟩
    have h1 := projected_cube U V s hU hV
    rw [← hM, hcube] at h1
    have h2 := projected_trace U V s hU hV
    rw [← hM, htr] at h2
    have h00 := congrFun (congrFun h1 0) 0
    simp [Matrix.smul_apply, mapRMat3, e0vec, smul_eq_mul] at h00
    rw [← h00] at h2
    norm_num at h2

/-- C3 (amended): the essential singular-value structure is enforced only when
strictly more than 8 correspondences are supplied; there, given the genuine
guarantees of the SVD oracle (exact decomposition, orthogonal factors, sorted
nonnegative singular values) and a nonzero null vector from the nullspace oracle,
the emitted model has exactly two equal nonzero singular values and one zero
singular value (`HasEssentialSV`).  With exactly 8 correspondences the raw linear
solution is emitted unenforced (see the counterexample). -/
theorem solve_structure_enforced_above_eight {K : Type} [LinearOrderedField K] {n : ℕ}
    (ns : (m : ℕ) → Matrix (Fin m) (Fin 9) K → Fin 9 → K)
    (svd : Matrix (Fin 3) (Fin 3) K → SVD3 K)
    (x1 x2 : Matrix (Fin 3) (Fin n) K) (models : List (Matrix (Fin 3) (Fin 3) K))
    (h8 : 8 < n)
    (hns : ns n (encodeEpipolarEquation x1 x2) ≠ 0)
    (hdec : mapRMat3 (ns n (encodeEpipolarEquation x1 x2)) =
        (svd (mapRMat3 (ns n (encodeEpipolarEquation x1 x2)))).U *
          Matrix.diagonal (svd (mapRMat3 (ns n (encodeEpipolarEquation x1 x2)))).d *
          ((svd (mapRMat3 (ns n (encodeEpipolarEquation x1 x2)))).V)ᵀ)
    (hU : ((svd (mapRMat3 (ns n (encodeEpipolarEquation x1 x2)))).U)ᵀ *
        (svd (mapRMat3 (ns n (encodeEpipolarEquation x1 x2)))).U = 1)
    (hV : ((svd (mapRMat3 (ns n (encodeEpipolarEquation x1 x2)))).V)ᵀ *
        (svd (mapRMat3 (ns n (encodeEpipolarEquation x1 x2)))).V = 1)
    (hnn : ∀ i, 0 ≤ (svd (mapRMat3 (ns n (encodeEpipolarEquation x1 x2)))).d i)
    (hsort : (svd (mapRMat3 (ns n (encodeEpipolarEquation x1 x2)))).d 1 ≤
          (svd (mapRMat3 (ns n (encodeEpipolarEquation x1 x2)))).d 0
        ∧ (svd (mapRMat3 (ns n (encodeEpipolarEquation x1 x2)))).d 2 ≤
          (svd (mapRMat3 (ns n (encodeEpipolarEquation x1 x2)))).d 1) :
    ∃ M, EightPointRelativePoseSolver.solve ns svd x1 x2 models = some (models ++ [M])
      ∧ HasEssentialSV M := by
  refine ⟨essentialProject (svd (mapRMat3 (ns n (encodeEpipolarEquation x1 x2)))), ?_, ?_⟩
  · simp [EightPointRelativePoseSolver.solve, h8, Nat.le_of_lt h8]
  · refine ⟨((svd (mapRMat3 (ns n (encodeEpipolarEquation x1 x2)))).d 0 +
        (svd (mapRMat3 (ns n (encodeEpipolarEquation x1 x2)))).d 1) / 2,
      (svd (mapRMat3 (ns n (encodeEpipolarEquation x1 x2)))).U,
      (svd (mapRMat3 (ns n (encodeEpipolarEquation x1 x2)))).V, ?_, hU, hV, rfl⟩
    set S := svd (mapRMat3 (ns n (encodeEpipolarEquation x1 x2))) with hSdef
    intro hzero
    have hsum : S.d 0 + S.d 1 = 0 := by
      have h2 : (2 : K) ≠ 0 := two_ne_zero
      field_simp at hzero
      exact hzero
    have hd0 : S.d 0 = 0 := le_antisymm (by linarith [hnn 0, hnn 1]) (hnn 0)
    have hd1 : S.d 1 = 0 := le_antisymm (by linarith [hnn 0, hnn 1]) (hnn 1)
    have hd2 : S.d 2 = 0 := le_antisymm (by linarith [hsort.2, hd1]) (hnn 2)
    have hdiag : Matrix.diagonal S.d = 0 := by
      funext i j
      rcases eq_or_ne i j with rfl | hij
      · fin_cases i <;> simp [Matrix.diagonal_apply, hd0, hd1, hd2]
      · simp [Matrix.diagonal_apply, hij]
    have hE0 : mapRMat3 (ns n (encodeEpipolarEquation x1 x2)) = 0 := by
      rw [hdec, hdiag, Matrix.mul_zero, Matrix.zero_mul]
    exact hns (mapRMat3_eq_zero hE0)

/-- C3 witness: the amended theorem applied at the concrete nine-column input with
the concrete honest oracles. -/
theorem solve_structure_enforced_above_eight_witness :
    ∃ M, EightPointRelativePoseSolver.solve nsE0 svdD100 x1nine x2nine [] =
        some ([] ++ [M]) ∧ HasEssentialSV M :=
  solve_structure_enforced_above_eight nsE0 svdD100 x1nine x2nine []
    (by decide)
    (by
      intro h
      have h0 := congrFun h 0
      simp [nsE0, e0vec] at h0)
    (by
      funext r c
      fin_cases r <;> fin_cases c <;> simp [mapRMat3, e0vec, nsE0, svdD100, Matrix.diagonal])
    (by simp [svdD100])
    (by simp [svdD100])
    (by intro i; fin_cases i <;> simp [svdD100])
    (by constructor <;> simp [svdD100])

/-- Value of the literal `3 : Fin 4`. -/
lemma fin4_val_three : ((3 : Fin 4)).val = 3 := rfl

/-- Value of the literal `3 : Fin 6`. -/
lemma fin6_val_three : ((3 : Fin 6)).val = 3 := rfl

/-- Value of the literal `4 : Fin 6`. -/
lemma fin6_val_four : ((4 : Fin 6)).val = 4 := rfl

/-- Value of the literal `5 : Fin 6`. -/
lemma fin6_val_five : ((5 : Fin 6)).val = 5 := rfl

/-- A concrete 3×4 projection matrix (the identity padded with a zero column). -/
def Pc : Matrix (Fin 3) (Fin 4) ℚ := Matrix.of fun r i => if r.val = i.val then 1 else 0

/-- The concrete direction `(1, 2, 3)`. -/
def x1c : Fin 3 → ℚ := fun i => (i.val : ℚ) + 1

/-- The concrete direction `(4, 5, 6)`. -/
def x2c : Fin 3 → ℚ := fun i => (i.val : ℚ) + 4

/-- C2 counterexample: the claim says each camera contributes only "the two
independent rows" of its cross-product constraint "with the redundant third row
dropped".  At the concrete input `(Pc, x1c, Pc, x2c)`, row 2 of the 6×4 system the
code builds equals the *third* cross-product row of camera 1, is nonzero, and
differs from all four rows the claim permits (rows 0 and 1 of either camera's
cross-product constraint) — so the third row is present, not dropped.  (A 6×4
system could not consist of two rows per camera in the first place.) -/
theorem triangulation_third_row_not_dropped :
    (∀ i, triangulationDesign Pc x1c Pc x2c 2 i = crossConstraint x1c Pc 2 i)
    ∧ (∃ i, triangulationDesign Pc x1c Pc x2c 2 i ≠ 0)
    ∧ (fun i => triangulationDesign Pc x1c Pc x2c 2 i) ≠ (fun i => crossConstraint x1c Pc 0 i)
    ∧ (fun i => triangulationDesign Pc x1c Pc x2c 2 i) ≠ (fun i => crossConstraint x1c Pc 1 i)
    ∧ (fun i => triangulationDesign Pc x1c Pc x2c 2 i) ≠ (fun i => crossConstraint x2c Pc 0 i)
    ∧ (fun i => triangulationDesign Pc x1c Pc x2c 2 i) ≠ (fun i => crossConstraint x2c Pc 1 i) := by
  refine ⟨?_, ⟨0, ?_⟩, ?_, ?_, ?_, ?_⟩
  · intro i
    fin_cases i <;>
      simp [triangulationDesign, crossConstraint, Pc, x1c, x2c, fin4_val_three]
  · simp [triangulationDesign, Pc, x1c, x2c]
  all_goals
    intro h
    have h0 := congrFun h 0
    simp [triangulationDesign, crossConstraint, Pc, x1c, x2c, fin4_val_three] at h0
    try norm_num at h0

/-- C2 (amended): the homogeneous Triangulator builds a 6×4 system whose six rows
are, for each camera in order, *all three* rows of the cross-product constraint
`cross(xi,·)·Pi·X = 0` (the redundant third row included), and returns the
nullspace extractor's right null vector of that system. -/
theorem triangulationDesign_all_cross_rows {K : Type} [Field K]
    (ns : Matrix (Fin 6) (Fin 4) K → Fin 4 → K)
    (P1 P2 : Matrix (Fin 3) (Fin 4) K) (x1 x2 : Fin 3 → K) :
    (∀ i, triangulationDesign P1 x1 P2 x2 0 i = crossConstraint x1 P1 0 i
        ∧ triangulationDesign P1 x1 P2 x2 1 i = crossConstraint x1 P1 1 i
        ∧ triangulationDesign P1 x1 P2 x2 2 i = crossConstraint x1 P1 2 i
        ∧ triangulationDesign P1 x1 P2 x2 3 i = crossConstraint x2 P2 0 i
        ∧ triangulationDesign P1 x1 P2 x2 4 i = crossConstraint x2 P2 1 i
        ∧ triangulationDesign P1 x1 P2 x2 5 i = crossConstraint x2 P2 2 i)
    ∧ TriangulateDLT ns P1 x1 P2 x2 = ns (triangulationDesign P1 x1 P2 x2) := by
  refine ⟨fun i => ⟨?_, ?_, ?_, ?_, ?_, ?_⟩, rfl⟩ <;>
    simp [triangulationDesign, crossConstraint, fin6_val_three, fin6_val_four, fin6_val_five] <;> ring

/-- The pre-normalization direction vector already has unit euclidean norm:
`sin²a·cos²b + cos²a + sin²a·sin²b = 1`. -/
lemma trig_vec_norm_one (a b : ℝ) :
    norm3 ![Real.sin a * Real.cos b, Real.cos a, Real.sin a * Real.sin b] = 1 := by
  have h2 := Real.sin_sq_add_cos_sq b
  have h1 := Real.sin_sq_add_cos_sq a
  have h : (Real.sin a * Real.cos b) ^ 2 + Real.cos a ^ 2 +
      (Real.sin a * Real.sin b) ^ 2 = 1 := by
    linear_combination Real.sin a ^ 2 * h2 + h1
  rw [norm3]
  simp only [Matrix.cons_val_zero, Matrix.cons_val_one, Matrix.head_cons,
    Matrix.cons_val_two, Matrix.tail_cons]
  rw [h, Real.sqrt_one]

/-- C8: for positive width and height, the projector maps `(x, y)` to
`normalize(sin(vπ)cos(π(2u+0.5)), cos(vπ), sin(vπ)sin(π(2u+0.5)))` with `u = x/width`,
`v = y/height` (first conjunct, definitional), it is a total function (no error
path exists in the embedding), and every output — pole inputs included — has unit
norm, because the pre-normalization vector already does. -/
theorem planarToSpherical_formula_unit_norm (width height : ℕ) (xy : Fin 2 → ℝ)
    (hw : 0 < width) (hh : 0 < height) :
    planarToSphericalPoint width height xy =
      normalize3
        ![Real.sin (xy 1 / (height : ℝ) * Real.pi) *
            Real.cos (Real.pi * (2.0 * (xy 0 / (width : ℝ)) + 0.5)),
          Real.cos (xy 1 / (height : ℝ) * Real.pi),
          Real.sin (xy 1 / (height : ℝ) * Real.pi) *
            Real.sin (Real.pi * (2.0 * (xy 0 / (width : ℝ)) + 0.5))]
    ∧ norm3 (planarToSphericalPoint width height xy) = 1 := by
  constructor
  · rfl
  · show norm3 (normalize3
      ![Real.sin (xy 1 / (height : ℝ) * Real.pi) *
          Real.cos (Real.pi * (2.0 * (xy 0 / (width : ℝ)) + 0.5)),
        Real.cos (xy 1 / (height : ℝ) * Real.pi),
        Real.sin (xy 1 / (height : ℝ) * Real.pi) *
          Real.sin (Real.pi * (2.0 * (xy 0 / (width : ℝ)) + 0.5))]) = 1
    have hn := trig_vec_norm_one (xy 1 / (height : ℝ) * Real.pi)
      (Real.pi * (2.0 * (xy 0 / (width : ℝ)) + 0.5))
    have heq : normalize3
        ![Real.sin (xy 1 / (height : ℝ) * Real.pi) *
            Real.cos (Real.pi * (2.0 * (xy 0 / (width : ℝ)) + 0.5)),
          Real.cos (xy 1 / (height : ℝ) * Real.pi),
          Real.sin (xy 1 / (height : ℝ) * Real.pi) *
            Real.sin (Real.pi * (2.0 * (xy 0 / (width : ℝ)) + 0.5))] =
        ![Real.sin (xy 1 / (height : ℝ) * Real.pi) *
            Real.cos (Real.pi * (2.0 * (xy 0 / (width : ℝ)) + 0.5)),
          Real.cos (xy 1 / (height : ℝ) * Real.pi),
          Real.sin (xy 1 / (height : ℝ) * Real.pi) *
            Real.sin (Real.pi * (2.0 * (xy 0 / (width : ℝ)) + 0.5))] := by
      funext i
      show _ / norm3 _ = _
      rw [hn, div_one]
    rw [heq, hn]

/-- C8 witness: unit norm at the concrete input `width = height = 1`, `(x,y) = (0,0)`
(a pole: `v = 0`). -/
theorem planarToSpherical_formula_unit_norm_witness :
    0 < 1 ∧ norm3 (planarToSphericalPoint 1 1 (fun _ => 0)) = 1 :=
  ⟨by decide,
   (planarToSpherical_formula_unit_norm 1 1 (fun _ => 0) (by decide) (by decide)).2⟩

/-- C7: for unit vectors `x1`, `x2` and any model, the angular error equals
`|arcsin((x2 · Em1) / (‖x2‖·‖Em1‖))|` with `Em1 = normalize(E·x1)` (first conjunct,
definitional), and the result always lies in `[0, π/2]` since `arcsin` has range
`[-π/2, π/2]`. -/
theorem angularError_formula_and_range (model : Matrix (Fin 3) (Fin 3) ℝ)
    (x1 x2 : Fin 3 → ℝ) (hx1 : norm3 x1 = 1) (hx2 : norm3 x2 = 1) :
    AngularError.error model x1 x2 =
      |Real.arcsin (dot3 x2 (normalize3 (model.mulVec x1)) /
        (norm3 x2 * norm3 (normalize3 (model.mulVec x1))))|
    ∧ 0 ≤ AngularError.error model x1 x2
    ∧ AngularError.error model x1 x2 ≤ Real.pi / 2 := by
  refine ⟨rfl, abs_nonneg _, ?_⟩
  show |Real.arcsin (dot3 x2 (normalize3 (model.mulVec x1)) /
      (norm3 x2 * norm3 (normalize3 (model.mulVec x1))))| ≤ Real.pi / 2
  rw [abs_le]
  refine ⟨?_, Real.arcsin_le_pi_div_two _⟩
  linarith [Real.neg_pi_div_two_le_arcsin (dot3 x2 (normalize3 (model.mulVec x1)) /
    (norm3 x2 * norm3 (normalize3 (model.mulVec x1))))]

/-- C7 witness: the range bounds at the identity model and the unit vector
`(1, 0, 0)`. -/
theorem angularError_formula_and_range_witness :
    norm3 unitX = 1
    ∧ 0 ≤ AngularError.error 1 unitX unitX
    ∧ AngularError.error 1 unitX unitX ≤ Real.pi / 2 :=
  have h : norm3 unitX = 1 := by
    simp [norm3, unitX]
  ⟨h, (angularError_formula_and_range 1 unitX unitX h h).2.1,
    (angularError_formula_and_range 1 unitX unitX h h).2.2⟩
